import Mathlib

/-!
Verification of the centos position-counting pipeline.

Shallow embedding of the repository's Python modules:
  * `ExtractScoreData`      — extract_score_data.py
  * `ScoreDataProcessing`   — score_data_processing.py (quartile scheme)
  * `Seg2ScoreDataProcessing` — seg2_score_data_processing.py (decile scheme)

A parsed music21 score is modelled as its flat event timeline: an ordered
list of events, each carrying a rational offset (in beats) and, for pitched
notes, a pitch-class name; rests carry no pitch.  Python's `int(x)` applied
to the float products `score_length * 0.25` / `score_length * 0.1` etc. is
modelled as exact floored division on naturals (`0.25` is exactly
representable; for the decile multiples `k/10` the double product of a
corpus-sized count with the nearest double to `k/10` truncates to
`floor(k*N/10)`).
-/

namespace Music

/-- A timeline event: a rational offset and, for pitched notes, a
pitch-class name (`none` models a rest). -/
structure Event where
  offset : ℚ
  pitch : Option String
deriving DecidableEq, Repr

/-- The ordered list of pitch names of the pitched events of a score:
models `[n.name for n in score.getElementsByClass(note.Note)]`. -/
def notePitchNames (score : List Event) : List String :=
  score.filterMap (fun ev => ev.pitch)

/-- The start indices at which `pattern` occurs in `names`: the indices the
counting loops `for i in range(len(names) - len(pattern) + 1)` iterate over
and for which the slice `names[i:i+len(pattern)]` equals the pattern.
(`names.length + 1 - pattern.length` is the truncated size of the Python
range, which is empty when the pattern is longer than the name list.) -/
def occIndices (names pattern : List String) : List Nat :=
  (List.range (names.length + 1 - pattern.length)).filter
    (fun i => decide ((names.drop i).take pattern.length = pattern))

end Music

namespace ScoreDataProcessing

open Music

/-- The counting loop of `count_pattern_in_score` (score_data_processing.py):
accumulator is `(pattern_count, first_quarter_count, last_quarter_count)`;
`int(score_length * 0.25)` is `N / 4`. -/
def quartile_loop (names pattern : List String) (N : Nat) :
    List Nat → Nat × Nat × Nat → Nat × Nat × Nat
  | [], acc => acc
  | i :: is, (pattern_count, first_quarter_count, last_quarter_count) =>
    if (names.drop i).take pattern.length = pattern then
      if i < N / 4 then
        quartile_loop names pattern N is
          (pattern_count + 1, first_quarter_count + 1, last_quarter_count)
      else if N - N / 4 ≤ i then
        quartile_loop names pattern N is
          (pattern_count + 1, first_quarter_count, last_quarter_count + 1)
      else
        quartile_loop names pattern N is
          (pattern_count + 1, first_quarter_count, last_quarter_count)
    else
      quartile_loop names pattern N is
        (pattern_count, first_quarter_count, last_quarter_count)

/-- `count_pattern_in_score` (score_data_processing.py): returns
`(first_quarter_count, middle_count, last_quarter_count)` with
`middle_count = pattern_count - (first_quarter_count + last_quarter_count)`. -/
def count_pattern_in_score (score : List Event) (pattern : List String) :
    Nat × Nat × Nat :=
  let score_pitch_names := notePitchNames score
  let score_length := score_pitch_names.length
  let counts := quartile_loop score_pitch_names pattern score_length
    (List.range (score_pitch_names.length + 1 - pattern.length)) (0, 0, 0)
  (counts.2.1, counts.1 - (counts.2.1 + counts.2.2), counts.2.2)

end ScoreDataProcessing

namespace Seg2ScoreDataProcessing

open Music

/-- The ten decile counters of `count_pattern_in_score`
(seg2_score_data_processing.py), mirroring the keys `'10_pct'` … `'100_pct'`
of the `distributed_pattern_counts` dict. -/
structure DecileCounts where
  pct10 : Nat
  pct20 : Nat
  pct30 : Nat
  pct40 : Nat
  pct50 : Nat
  pct60 : Nat
  pct70 : Nat
  pct80 : Nat
  pct90 : Nat
  pct100 : Nat
deriving DecidableEq, Repr

/-- Sum of all ten bucket counts. -/
def DecileCounts.total (d : DecileCounts) : Nat :=
  d.pct10 + d.pct20 + d.pct30 + d.pct40 + d.pct50 + d.pct60 + d.pct70 +
    d.pct80 + d.pct90 + d.pct100

/-- The all-zero dict the decile counter starts from. -/
def DecileCounts.zero : DecileCounts := ⟨0, 0, 0, 0, 0, 0, 0, 0, 0, 0⟩

/-- The counting loop of `count_pattern_in_score`
(seg2_score_data_processing.py): the `if`/`elif` chain over the bucket
bounds, `int(score_length * k/10)` modelled as `k * N / 10`.  An index
matching none of the guards (possible between `9 * N / 10` and
`N - N / 10`) falls through without being counted, exactly as the Python
`elif` chain does. -/
def decile_loop (names pattern : List String) (N : Nat) :
    List Nat → DecileCounts → DecileCounts
  | [], d => d
  | i :: is, d =>
    if (names.drop i).take pattern.length = pattern then
      if i < N / 10 then
        decile_loop names pattern N is { d with pct10 := d.pct10 + 1 }
      else if N / 10 ≤ i ∧ i < 2 * N / 10 then
        decile_loop names pattern N is { d with pct20 := d.pct20 + 1 }
      else if 2 * N / 10 ≤ i ∧ i < 3 * N / 10 then
        decile_loop names pattern N is { d with pct30 := d.pct30 + 1 }
      else if 3 * N / 10 ≤ i ∧ i < 4 * N / 10 then
        decile_loop names pattern N is { d with pct40 := d.pct40 + 1 }
      else if 4 * N / 10 ≤ i ∧ i < 5 * N / 10 then
        decile_loop names pattern N is { d with pct50 := d.pct50 + 1 }
      else if 5 * N / 10 ≤ i ∧ i < 6 * N / 10 then
        decile_loop names pattern N is { d with pct60 := d.pct60 + 1 }
      else if 6 * N / 10 ≤ i ∧ i < 7 * N / 10 then
        decile_loop names pattern N is { d with pct70 := d.pct70 + 1 }
      else if 7 * N / 10 ≤ i ∧ i < 8 * N / 10 then
        decile_loop names pattern N is { d with pct80 := d.pct80 + 1 }
      else if 8 * N / 10 ≤ i ∧ i < 9 * N / 10 then
        decile_loop names pattern N is { d with pct90 := d.pct90 + 1 }
      else if N - N / 10 ≤ i then
        decile_loop names pattern N is { d with pct100 := d.pct100 + 1 }
      else
        decile_loop names pattern N is d
    else
      decile_loop names pattern N is d

/-- `count_pattern_in_score` (seg2_score_data_processing.py): the decile
histogram of a pattern's occurrence start indices. -/
def count_pattern_in_score (score : List Event) (pattern : List String) :
    DecileCounts :=
  let score_pitch_names := notePitchNames score
  let score_length := score_pitch_names.length
  decile_loop score_pitch_names pattern score_length
    (List.range (score_pitch_names.length + 1 - pattern.length))
    DecileCounts.zero

end Seg2ScoreDataProcessing

namespace Music

/-- A sub-timeline of 15 pitched notes, all `C` except a `D` at index 13;
the pattern `["D"]` occurs exactly once, at start index 13. -/
def gapScore : List Event :=
  (List.replicate 13 (Event.mk 0 (some "C"))) ++
    [Event.mk 0 (some "D"), Event.mk 0 (some "C")]

/-- The synthetic 20-note timeline `[C,D,E,F,G] * 4` of the spec's
end-to-end scenario 1 (all offsets irrelevant to pattern counting). -/
def scenarioScore : List Event :=
  ((List.replicate 4 ["C", "D", "E", "F", "G"]).flatten).map
    (fun nm => Event.mk 0 (some nm))

end Music

namespace PyDict

/-- Lookup in a Python dict modelled as an insertion-ordered association
list: the value at the first matching key, if any. -/
def dict_find : List (String × α) → String → Option α
  | [], _ => none
  | kv :: rest, k => if kv.1 = k then some kv.2 else dict_find rest k

/-- Assignment to an existing key of a Python dict: the value is replaced
in place, the key keeps its position. -/
def dict_update (d : List (String × α)) (k : String) (v : α) :
    List (String × α) :=
  d.map (fun kv => if kv.1 = k then (k, v) else kv)

/-- Python `d[k] = v`: replace in place when the key exists, else append
(dicts preserve insertion order). -/
def dict_insert (d : List (String × α)) (k : String) (v : α) :
    List (String × α) :=
  if (dict_find d k).isSome then dict_update d k v else d ++ [(k, v)]

end PyDict

namespace ExtractScoreData

open Music

/-- Modelled from the spec: the Event Timeline Adapter's offset-range
slicing capability (music21 `getElementsByOffset(start, end,
includeEndBoundary=False)`, which is external library code) returns
exactly the elements whose offset `o` satisfies `start <= o < end`, in
timeline order. -/
def getElementsByOffset (score : List Event) (offset_start offset_end : ℚ) :
    List Event :=
  score.filter (fun el =>
    decide (offset_start ≤ el.offset) && decide (el.offset < offset_end))

/-- `extract_measures` (extract_score_data.py): create an empty stream and
append, in order, each element returned by `getElementsByOffset`. -/
def extract_measures (score : List Event) (start_offset end_offset : ℚ) :
    List Event :=
  (getElementsByOffset score start_offset end_offset).foldl
    (fun extracted_part element => extracted_part ++ [element]) []

/-- A line-section annotation dict: innermost nesting level.  Optional
fields model the presence or absence of the dict keys; `score` is the
attached sub-timeline, present only after extraction. -/
structure LineSection where
  start : Option ℚ
  «end» : Option ℚ
  score : Option (List Event)
deriving DecidableEq, Repr

/-- A line annotation dict, optionally holding nested `sections`. -/
structure Line where
  start : Option ℚ
  «end» : Option ℚ
  sections : Option (List LineSection)
  score : Option (List Event)
deriving DecidableEq, Repr

/-- A sana annotation dict, optionally holding nested `lines`. -/
structure Sana where
  start : Option ℚ
  «end» : Option ℚ
  lines : Option (List Line)
  score : Option (List Event)
deriving DecidableEq, Repr

/-- A top-level section annotation dict, optionally holding nested sanai
(other keys of the Python dict, such as the mode label, play no part in
the extraction functions modelled here). -/
structure Section where
  start : Option ℚ
  «end» : Option ℚ
  sanai : Option (List Sana)
  score : Option (List Event)
deriving DecidableEq, Repr

/-- Reading a key of a Python dict: the value when the key is present,
otherwise a raised `KeyError` naming the key. -/
def getKey (v : Option α) (key : String) : Except String α :=
  match v with
  | some x => Except.ok x
  | none => Except.error ("KeyError: '" ++ key ++ "'")

/-- The shape of the extraction for-loops: rebuild a list by applying `f`
to each element in order, propagating the first raised error. -/
def extract_list (f : α → Except String α) : List α → Except String (List α)
  | [] => Except.ok []
  | x :: xs => do
    let y ← f x
    let ys ← extract_list f xs
    pure (y :: ys)

/-- The innermost body of `extract_sections`: read the line-section's
`start` and `end` keys, slice the score and attach it. -/
def extract_line_section (score : List Event) (line_section : LineSection) :
    Except String LineSection := do
  let line_section_start ← getKey line_section.start "start"
  let line_section_end ← getKey line_section.«end» "end"
  let line_section_measures :=
    extract_measures score line_section_start line_section_end
  pure { line_section with score := some line_section_measures }

/-- The per-line body of `extract_sections`: slice and attach the line's
span, then process its `sections` when that key is present. -/
def extract_line (score : List Event) (line : Line) : Except String Line := do
  let line_start ← getKey line.start "start"
  let line_end ← getKey line.«end» "end"
  let line_measures := extract_measures score line_start line_end
  match line.sections with
  | some line_sections => do
    let line_sections' ←
      extract_list (extract_line_section score) line_sections
    pure { line with score := some line_measures,
                     sections := some line_sections' }
  | none => pure { line with score := some line_measures }

/-- The per-sana body of `extract_sections`: slice and attach the sana's
span, then process its `lines` when that key is present. -/
def extract_sana (score : List Event) (sana : Sana) : Except String Sana := do
  let sana_start ← getKey sana.start "start"
  let sana_end ← getKey sana.«end» "end"
  let sana_measures := extract_measures score sana_start sana_end
  match sana.lines with
  | some lines => do
    let lines' ← extract_list (extract_line score) lines
    pure { sana with score := some sana_measures, lines := some lines' }
  | none => pure { sana with score := some sana_measures }

/-- The per-section body of `extract_sections`: read the required `start`
and `end` keys, slice and attach the section's span, then recurse into the
sanai when that key is present. -/
def extract_section (score : List Event) (sect : Section) :
    Except String Section := do
  let start_measure ← getKey sect.start "start"
  let end_measure ← getKey sect.«end» "end"
  let extracted_measures := extract_measures score start_measure end_measure
  match sect.sanai with
  | some sanai => do
    let sanai' ← extract_list (extract_sana score) sanai
    pure { sect with score := some extracted_measures,
                     sanai := some sanai' }
  | none => pure { sect with score := some extracted_measures }

/-- `extract_sections` (extract_score_data.py): process every declared
section of a piece's annotation tree in order; a `KeyError` raised by any
node propagates out of the whole call. -/
def extract_sections (score : List Event) (score_sections : List Section) :
    Except String (List Section) :=
  extract_list (extract_section score) score_sections

/-- One parsed piece: its (flattened) score timeline and its annotation
tree, i.e. the dict `{'score': ..., 'annotations': ...}`. -/
structure ScoreData where
  score : List Event
  annotations : List Section
deriving DecidableEq, Repr

/-- One record of the annotation set: a piece id and its section tree. -/
structure Annotation where
  mbid : String
  sections : List Section
deriving DecidableEq, Repr

/-- Whether `sep` begins the character list `cs`. -/
def starts_with : List Char → List Char → Bool
  | [], _ => true
  | _ :: _, [] => false
  | s :: ss, c :: cs => s = c && starts_with ss cs

/-- The characters before the first occurrence of the separator `sep`
(the whole list when the separator never occurs): the first field of a
Python `str.split(sep)`. -/
def split_head (sep : List Char) : List Char → List Char
  | [] => []
  | c :: cs =>
    if starts_with sep (c :: cs) then [] else c :: split_head sep cs

/-- `file_name.split('.xml')[0]`: the piece id is the filename stem before
the first occurrence of `.xml`. -/
def mbid_of_file (file_name : String) : String :=
  String.mk (split_head ".xml".toList file_name.toList)

/-- The inner `for annotation in annotations` loop of `get_score_data`,
wrapped with its `try`: on the first record whose `mbid` matches, parse
the file (a raised parse error escapes), attach that record's sections and
`break`; later records are never examined. -/
def annotation_scan (parse : String → Except String (List Event))
    (file_path mbid : String) :
    List Annotation → Except String (Option ScoreData)
  | [] => Except.ok none
  | annotation :: rest =>
    if annotation.mbid = mbid then
      match parse file_path with
      | Except.ok score => Except.ok (some ⟨score, annotation.sections⟩)
      | Except.error e => Except.error e
    else annotation_scan parse file_path mbid rest

/-- The `for file_name in scores_folder` loop of `get_score_data`,
threading the scores dict and the list of printed error messages. -/
def get_score_data_loop (parse : String → Except String (List Event))
    (folder_path : String) (annotations : List Annotation) :
    List String → List (String × ScoreData) × List String →
      List (String × ScoreData) × List String
  | [], st => st
  | file_name :: rest, (scores, log) =>
    let mbid := mbid_of_file file_name
    let file_path := folder_path ++ "/" ++ file_name
    match annotation_scan parse file_path mbid annotations with
    | Except.ok (some sd) =>
      get_score_data_loop parse folder_path annotations rest
        (PyDict.dict_insert scores mbid sd, log)
    | Except.ok none =>
      get_score_data_loop parse folder_path annotations rest (scores, log)
    | Except.error e =>
      get_score_data_loop parse folder_path annotations rest
        (scores, log ++ ["Error parsing file '" ++ file_path ++ "': " ++ e])

/-- `get_score_data` (extract_score_data.py).  The external parsing
collaborator `converter.parse` is passed in as `parse` (it returns a
timeline or raises); the second component of the result collects the
printed per-file error messages. -/
def get_score_data (parse : String → Except String (List Event))
    (scores_folder : List String) (folder_path : String)
    (annotations : List Annotation) :
    List (String × ScoreData) × List String :=
  get_score_data_loop parse folder_path annotations scores_folder ([], [])

/-- `add_streams_to_score_data` (extract_score_data.py): for every piece
of the corpus, in order, extract its sections and store them back.  The
flattening `score.parts[0].flatten().notesAndRests.stream()` is the
external adapter producing the flat timeline; parsed scores are modelled
directly as flat timelines, so it is the stored timeline itself.  There is
no try/except here: an error raised for any piece propagates out of the
whole call. -/
def add_streams_to_score_data (scores_data : List (String × ScoreData)) :
    Except String (List (String × ScoreData)) :=
  extract_list (fun entry => do
    let flattened_score := entry.2.score
    let score_sections ← extract_sections flattened_score entry.2.annotations
    pure (entry.1, { entry.2 with annotations := score_sections }))
    scores_data

/-- A line-section dict lacking a required key. -/
def line_section_missing_key (ls : LineSection) : Bool :=
  ls.start.isNone || ls.«end».isNone

/-- A line dict (or one of its declared line-sections) lacking a required
key. -/
def line_missing_key (line : Line) : Bool :=
  line.start.isNone || line.«end».isNone ||
    (match line.sections with
     | some xs => xs.any line_section_missing_key
     | none => false)

/-- A sana dict (or one of its declared lines) lacking a required key. -/
def sana_missing_key (sana : Sana) : Bool :=
  sana.start.isNone || sana.«end».isNone ||
    (match sana.lines with
     | some xs => xs.any line_missing_key
     | none => false)

/-- A section dict (or one of its declared descendants) lacking a
required key. -/
def section_missing_key (sect : Section) : Bool :=
  sect.start.isNone || sect.«end».isNone ||
    (match sect.sanai with
     | some xs => xs.any sana_missing_key
     | none => false)

/-- Some declared node of a piece's annotation tree lacks a required
`start` or `end` key. -/
def annotations_missing_key (secs : List Section) : Bool :=
  secs.any section_missing_key

/-- Modelled from the spec (corpus-build contract): the list of error
messages the corpus build prints — one per file that has a matching
annotation record but whose parse raises, carrying the file path and the
underlying cause. -/
def corpus_log (parse : String → Except String (List Event))
    (folder_path : String) (annotations : List Annotation)
    (scores_folder : List String) : List String :=
  scores_folder.filterMap (fun file_name =>
    match annotations.find?
        (fun a => decide (a.mbid = mbid_of_file file_name)) with
    | some _ =>
      match parse (folder_path ++ "/" ++ file_name) with
      | Except.error e =>
        some ("Error parsing file '" ++ (folder_path ++ "/" ++ file_name) ++
          "': " ++ e)
      | Except.ok _ => none
    | none => none)

/-- Modelled from the spec (corpus-build contract): the corpus entries, one
per file whose stem matches the `mbid` of some annotation record (the
first such record supplies the sections) and whose parse succeeds; files
that fail to parse or match no record contribute nothing and the build
moves on to the next file. -/
def corpus_scores (parse : String → Except String (List Event))
    (folder_path : String) (annotations : List Annotation)
    (scores_folder : List String) (scores : List (String × ScoreData)) :
    List (String × ScoreData) :=
  scores_folder.foldl (fun scores file_name =>
    match annotations.find?
        (fun a => decide (a.mbid = mbid_of_file file_name)) with
    | some a =>
      match parse (folder_path ++ "/" ++ file_name) with
      | Except.ok score =>
        PyDict.dict_insert scores (mbid_of_file file_name) ⟨score, a.sections⟩
      | Except.error _ => scores
    | none => scores) scores

end ExtractScoreData

namespace Pandas

/-- Element-wise dataframe division as used in the row normalizations
below, where the denominator is the row total: each entry is the exact
quotient, except that a zero denominator — which there forces a zero
numerator, since the numerator is one summand of the total — produces the
float `NaN` of `0.0 / 0.0`, modelled as `none`. -/
def pd_div (x s : Nat) : Option ℚ :=
  if s = 0 then none else some ((x : ℚ) / (s : ℚ))

/-- `Series.sum()` with its default `skipna=True`: `NaN` entries are
skipped, and a series of only `NaN`s sums to `0.0`. -/
def nan_sum (l : List (Option ℚ)) : ℚ :=
  (l.filterMap id).sum

end Pandas

namespace ScoreDataProcessing

open Music

/-- One row of a quartile position-count table: the `Pattern` key and the
numeric columns `Start 25%`, `Middle 50%`, `End 25%`. -/
structure PRow where
  pattern : String
  start25 : Nat
  middle50 : Nat
  end25 : Nat
deriving DecidableEq, Repr

/-- The row total `df[['Start 25%', 'Middle 50%', 'End 25%']].sum(axis=1)`
of one row. -/
def row_total (r : PRow) : Nat :=
  r.start25 + r.middle50 + r.end25

/-- Code-point-wise lexicographic comparison of character lists: the
order in which pandas sorts string group keys. -/
def chars_le : List Char → List Char → Bool
  | [], _ => true
  | _ :: _, [] => false
  | a :: as, b :: bs =>
    if a.toNat < b.toNat then true
    else if b.toNat < a.toNat then false
    else chars_le as bs

/-- Lexicographic string comparison by code points. -/
def string_le (a b : String) : Bool :=
  chars_le a.toList b.toList

/-- Insert a string into a sorted list of strings. -/
def ordered_insert (a : String) : List String → List String
  | [] => [a]
  | b :: l => if string_le a b then a :: b :: l else b :: ordered_insert a l

/-- Insertion sort of string keys, as pandas sorts group labels. -/
def insertion_sort : List String → List String
  | [] => []
  | a :: l => ordered_insert a (insertion_sort l)

/-- `df.groupby('Pattern').sum().reset_index()`: one row per distinct
pattern, in sorted key order (pandas sorts group keys by default), each
numeric column summed over that pattern's rows. -/
def groupby_pattern_sum (df : List PRow) : List PRow :=
  (insertion_sort ((df.map PRow.pattern).dedup)).map
    (fun p =>
      { pattern := p,
        start25 :=
          ((df.filter (fun r => decide (r.pattern = p))).map PRow.start25).sum,
        middle50 :=
          ((df.filter (fun r => decide (r.pattern = p))).map PRow.middle50).sum,
        end25 :=
          ((df.filter (fun r => decide (r.pattern = p))).map PRow.end25).sum })

/-- `str.strip()`: drop leading and trailing whitespace characters. -/
def strip_chars (cs : List Char) : List Char :=
  ((cs.dropWhile Char.isWhitespace).reverse.dropWhile
    Char.isWhitespace).reverse

/-- `key.split(':')[0].strip()`: the group key of a table title is its
text before the first colon, stripped of surrounding whitespace. -/
def title_group_key (key : String) : String :=
  String.mk (strip_chars (key.toList.takeWhile (fun c => c ≠ ':')))

/-- The merging loop of `count_distribution_over_dataset`: fold the titled
tables into a dict keyed by group key, concatenating tables that share a
key (`pd.concat`). -/
def merge_loop :
    List (String × List PRow) → List (String × List PRow) →
      List (String × List PRow)
  | [], merged_data => merged_data
  | (key, df) :: rest, merged_data =>
    let group_key := title_group_key key
    match PyDict.dict_find merged_data group_key with
    | none => merge_loop rest (merged_data ++ [(group_key, df)])
    | some old =>
      merge_loop rest (PyDict.dict_update merged_data group_key (old ++ df))

/-- `count_distribution_over_dataset` (score_data_processing.py): group
the titled tables by group key, then group-and-sum each merged table by
pattern. -/
def count_distribution_over_dataset
    (cumulative_centos_positions : List (String × List PRow)) :
    List (String × List PRow) :=
  (merge_loop cumulative_centos_positions []).map
    (fun kv => (kv.1, groupby_pattern_sum kv.2))

/-- The concatenation, in input order, of all tables whose title has group
key `k` — the rows the merge phase accumulates for that group. -/
def group_rows (tables : List (String × List PRow)) (k : String) :
    List PRow :=
  (tables.filter (fun t => decide (title_group_key t.1 = k))).flatMap
    (fun t => t.2)

/-- The distinct group keys of the titled tables, in first-occurrence
order and skipping those already `seen` — the key order in which the merge
phase creates dict entries. -/
def grouped_keys : List (String × List PRow) → List String → List String
  | [], _ => []
  | t :: rest, seen =>
    if title_group_key t.1 ∈ seen then grouped_keys rest seen
    else title_group_key t.1 :: grouped_keys rest (title_group_key t.1 :: seen)

/-- The per-table body of `combine_normalized_position_counts`: normalize
each row of the table by its row total (`div(row_sums, axis=0)`, no zero
guard) and add the per-column `NaN`-skipping sums to the running totals. -/
def combine_step (total_counts : ℚ × ℚ × ℚ) (df : List PRow) : ℚ × ℚ × ℚ :=
  (total_counts.1 +
      Pandas.nan_sum (df.map (fun r => Pandas.pd_div r.start25 (row_total r))),
    total_counts.2.1 +
      Pandas.nan_sum (df.map (fun r => Pandas.pd_div r.middle50 (row_total r))),
    total_counts.2.2 +
      Pandas.nan_sum (df.map (fun r => Pandas.pd_div r.end25 (row_total r))))

/-- `combine_normalized_position_counts` (score_data_processing.py): run
the per-table normalization over every table, accumulating the three
position totals from `(0, 0, 0)`. -/
def combine_normalized_position_counts (scores_data : List (List PRow)) :
    ℚ × ℚ × ℚ :=
  scores_data.foldl combine_step (0, 0, 0)

end ScoreDataProcessing

namespace Seg2ScoreDataProcessing

/-- One row of a decile position-count table: the `Pattern` key and the
ten numeric columns `10th Percentile` … `100th Percentile`. -/
structure DRow where
  pattern : String
  p10 : Nat
  p20 : Nat
  p30 : Nat
  p40 : Nat
  p50 : Nat
  p60 : Nat
  p70 : Nat
  p80 : Nat
  p90 : Nat
  p100 : Nat
deriving DecidableEq, Repr

/-- The row total over the ten percentile columns (`sum(axis=1)`). -/
def drow_total (r : DRow) : Nat :=
  r.p10 + r.p20 + r.p30 + r.p40 + r.p50 + r.p60 + r.p70 + r.p80 + r.p90 +
    r.p100

/-- The accumulated `total_counts` dict of the decile
`combine_normalized_position_counts`: one rational per percentile column. -/
structure DTotals where
  t10 : ℚ
  t20 : ℚ
  t30 : ℚ
  t40 : ℚ
  t50 : ℚ
  t60 : ℚ
  t70 : ℚ
  t80 : ℚ
  t90 : ℚ
  t100 : ℚ
deriving DecidableEq, Repr

/-- The per-table body of the decile `combine_normalized_position_counts`:
normalize each row of the table by its row total (no zero guard) and add
the per-column `NaN`-skipping sums to the running totals. -/
def combine_step (tc : DTotals) (df : List DRow) : DTotals :=
  { t10 := tc.t10 +
        Pandas.nan_sum (df.map (fun r => Pandas.pd_div r.p10 (drow_total r))),
      t20 := tc.t20 +
        Pandas.nan_sum (df.map (fun r => Pandas.pd_div r.p20 (drow_total r))),
      t30 := tc.t30 +
        Pandas.nan_sum (df.map (fun r => Pandas.pd_div r.p30 (drow_total r))),
      t40 := tc.t40 +
        Pandas.nan_sum (df.map (fun r => Pandas.pd_div r.p40 (drow_total r))),
      t50 := tc.t50 +
        Pandas.nan_sum (df.map (fun r => Pandas.pd_div r.p50 (drow_total r))),
      t60 := tc.t60 +
        Pandas.nan_sum (df.map (fun r => Pandas.pd_div r.p60 (drow_total r))),
      t70 := tc.t70 +
        Pandas.nan_sum (df.map (fun r => Pandas.pd_div r.p70 (drow_total r))),
      t80 := tc.t80 +
        Pandas.nan_sum (df.map (fun r => Pandas.pd_div r.p80 (drow_total r))),
      t90 := tc.t90 +
        Pandas.nan_sum (df.map (fun r => Pandas.pd_div r.p90 (drow_total r))),
      t100 := tc.t100 +
        Pandas.nan_sum (df.map (fun r => Pandas.pd_div r.p100 (drow_total r))) }

/-- `combine_normalized_position_counts`
(seg2_score_data_processing.py): run the per-table normalization over
every table, accumulating the ten percentile totals from zero. -/
def combine_normalized_position_counts (scores_data : List (List DRow)) :
    DTotals :=
  scores_data.foldl combine_step ⟨0, 0, 0, 0, 0, 0, 0, 0, 0, 0⟩

end Seg2ScoreDataProcessing

namespace ScoreDataProcessing

open Music

/-- Interchange of a conjunctive filter with two nested filters (kept
bespoke so the predicate shapes match the counting loops exactly). -/
theorem filter_and_eq (l : List Nat) (p q : Nat → Bool) :
    l.filter (fun i => p i && q i) = (l.filter q).filter p := by
  induction l with
  | nil => rfl
  | cons a l ih =>
    cases hq : q a <;> cases hp : p a <;>
      simp only [List.filter_cons, hp, hq, Bool.and_true, Bool.and_false,
        Bool.true_and, Bool.false_and, ih, Bool.false_eq_true, ite_false,
        ite_true]

/-- Closed form of the quartile counting loop: starting from accumulator
`(pc, fc, lc)`, the loop adds the number of matching indices, the number of
matching indices in the first quartile, and the number of matching indices
hit by the `elif` for the last quartile. -/
theorem quartile_loop_eq (names pattern : List String) (N : Nat)
    (l : List Nat) (pc fc lc : Nat) :
    quartile_loop names pattern N l (pc, fc, lc) =
      (pc + (l.filter
          (fun i => decide ((names.drop i).take pattern.length = pattern))).length,
       fc + (l.filter
          (fun i => decide (i < N / 4) &&
            decide ((names.drop i).take pattern.length = pattern))).length,
       lc + (l.filter
          (fun i => (!decide (i < N / 4) && decide (N - N / 4 ≤ i)) &&
            decide ((names.drop i).take pattern.length = pattern))).length) := by
  induction l generalizing pc fc lc with
  | nil => simp [quartile_loop]
  | cons i is ih =>
    by_cases hm : (names.drop i).take pattern.length = pattern
    · have hmb : decide ((names.drop i).take pattern.length = pattern) = true :=
        decide_eq_true hm
      by_cases h1 : i < N / 4
      · have h1b : decide (i < N / 4) = true := decide_eq_true h1
        simp only [quartile_loop, if_pos hm, if_pos h1, ih, List.filter_cons,
          hmb, h1b, Bool.and_true, Bool.true_and, Bool.not_true,
          Bool.false_and, Bool.and_false, ite_true, ite_false,
          Bool.false_eq_true, List.length_cons, Prod.mk.injEq, and_true,
          true_and]
        omega
      · have h1b : decide (i < N / 4) = false := decide_eq_false h1
        by_cases h2 : N - N / 4 ≤ i
        · have h2b : decide (N - N / 4 ≤ i) = true := decide_eq_true h2
          simp only [quartile_loop, if_pos hm, if_neg h1, if_pos h2, ih,
            List.filter_cons, hmb, h1b, h2b, Bool.and_true, Bool.true_and,
            Bool.not_false, Bool.false_and, Bool.and_false, ite_true,
            ite_false, Bool.false_eq_true, List.length_cons, Prod.mk.injEq,
            and_true, true_and]
          omega
        · have h2b : decide (N - N / 4 ≤ i) = false := decide_eq_false h2
          simp only [quartile_loop, if_pos hm, if_neg h1, if_neg h2, ih,
            List.filter_cons, hmb, h1b, h2b, Bool.and_true, Bool.true_and,
            Bool.not_false, Bool.false_and, Bool.and_false, ite_true,
            ite_false, Bool.false_eq_true, List.length_cons, Prod.mk.injEq,
            and_true, true_and]
          omega
    · have hmb : decide ((names.drop i).take pattern.length = pattern) = false :=
        decide_eq_false hm
      simp only [quartile_loop, if_neg hm, ih, List.filter_cons, hmb,
        Bool.and_true, Bool.and_false, ite_false, Bool.false_eq_true]

/-- The Start and End quartile regions cannot overlap: no index is both
below `floor(0.25*N)` and at or above `N - floor(0.25*N)`. -/
theorem quartile_no_overlap (N i : Nat) (h1 : i < N / 4)
    (h2 : N - N / 4 ≤ i) : False := by
  have h3 : N / 4 * 4 ≤ N := Nat.div_mul_le_self N 4
  omega

/-- The occurrence indices split exactly into the Start, Middle and End
regions, and the loop's `elif`-guarded End filter agrees with the plain
`i >= N - floor(0.25*N)` filter. -/
theorem quartile_split (N : Nat) (occ : List Nat) :
    occ.filter (fun i => !decide (i < N / 4) && decide (N - N / 4 ≤ i)) =
        occ.filter (fun i => decide (N - N / 4 ≤ i)) ∧
      (occ.filter (fun i => decide (i < N / 4))).length +
        (occ.filter
          (fun i => !decide (i < N / 4) && !decide (N - N / 4 ≤ i))).length +
        (occ.filter (fun i => decide (N - N / 4 ≤ i))).length = occ.length := by
  induction occ with
  | nil => simp
  | cons i is ih =>
    obtain ⟨ih1, ih2⟩ := ih
    by_cases h1 : i < N / 4
    · have h2 : ¬ (N - N / 4 ≤ i) := fun h => quartile_no_overlap N i h1 h
      have h1b : decide (i < N / 4) = true := decide_eq_true h1
      have h2b : decide (N - N / 4 ≤ i) = false := decide_eq_false h2
      refine ⟨?_, ?_⟩ <;>
        simp only [List.filter_cons, h1b, h2b, Bool.not_true, Bool.not_false,
          Bool.true_and, Bool.false_and, Bool.and_true, Bool.and_false,
          ite_true, ite_false, Bool.false_eq_true, List.length_cons, ih1]
      omega
    · have h1b : decide (i < N / 4) = false := decide_eq_false h1
      by_cases h2 : N - N / 4 ≤ i
      · have h2b : decide (N - N / 4 ≤ i) = true := decide_eq_true h2
        refine ⟨?_, ?_⟩ <;>
          simp only [List.filter_cons, h1b, h2b, Bool.not_true, Bool.not_false,
            Bool.true_and, Bool.false_and, Bool.and_true, Bool.and_false,
            ite_true, ite_false, Bool.false_eq_true, List.length_cons, ih1]
        omega
      · have h2b : decide (N - N / 4 ≤ i) = false := decide_eq_false h2
        refine ⟨?_, ?_⟩ <;>
          simp only [List.filter_cons, h1b, h2b, Bool.not_true, Bool.not_false,
            Bool.true_and, Bool.false_and, Bool.and_true, Bool.and_false,
            ite_true, ite_false, Bool.false_eq_true, List.length_cons, ih1]
        omega

/-- Characterization of `count_pattern_in_score`: its three components are
the numbers of occurrence start indices with `i < floor(0.25*N)`, with
neither boundary condition, and with `i >= N - floor(0.25*N)`. -/
theorem count_pattern_in_score_char (score : List Event)
    (pattern : List String) :
    count_pattern_in_score score pattern =
      (((occIndices (notePitchNames score) pattern).filter
          (fun i => decide (i < (notePitchNames score).length / 4))).length,
       ((occIndices (notePitchNames score) pattern).filter
          (fun i => !decide (i < (notePitchNames score).length / 4) &&
            !decide ((notePitchNames score).length -
              (notePitchNames score).length / 4 ≤ i))).length,
       ((occIndices (notePitchNames score) pattern).filter
          (fun i => decide ((notePitchNames score).length -
            (notePitchNames score).length / 4 ≤ i))).length) := by
  have hq := quartile_split (notePitchNames score).length
    (occIndices (notePitchNames score) pattern)
  simp only [count_pattern_in_score, occIndices] at *
  rw [quartile_loop_eq]
  rw [filter_and_eq, filter_and_eq]
  simp only [Nat.zero_add]
  rw [hq.1]
  refine Prod.ext rfl (Prod.ext ?_ rfl)
  simp only
  omega

end ScoreDataProcessing

namespace ExtractScoreData

open Music

/-- Appending elements one by one onto an accumulator reproduces the
accumulator followed by the traversed list. -/
theorem foldl_append_singleton (l init : List Event) :
    l.foldl (fun extracted_part element => extracted_part ++ [element])
        init = init ++ l := by
  induction l generalizing init with
  | nil => simp
  | cons x xs ih => simp [List.foldl_cons, ih]

/-- `extract_measures` returns exactly the adapter's slice. -/
theorem extract_measures_eq_slice (score : List Event) (s e : ℚ) :
    extract_measures score s e = getElementsByOffset score s e := by
  simp [extract_measures, foldl_append_singleton]

/-- Binding a raised error short-circuits. -/
theorem error_bind (e : String) (f : α → Except String β) :
    (Except.error e >>= f) = Except.error e := rfl

/-- Binding a successful result applies the continuation. -/
theorem ok_bind (a : α) (f : α → Except String β) :
    (Except.ok a >>= f) = f a := rfl

/-- If any element of the list makes `f` raise, the rebuilding loop
raises. -/
theorem extract_list_error (f : α → Except String α) (xs : List α) (x : α)
    (hx : x ∈ xs) (e : String) (hfe : f x = Except.error e) :
    ∃ e', extract_list f xs = Except.error e' := by
  induction xs with
  | nil => cases hx
  | cons y ys ih =>
    cases hy : f y with
    | error e'' => exact ⟨e'', by simp [extract_list, hy, error_bind]⟩
    | ok y' =>
      rcases List.mem_cons.mp hx with rfl | hmem
      · rw [hfe] at hy; cases hy
      · obtain ⟨e', he'⟩ := ih hmem
        exact ⟨e', by simp [extract_list, hy, ok_bind, he', error_bind]⟩

/-- A line-section lacking a required key makes its extraction raise. -/
theorem extract_line_section_error (score : List Event) (ls : LineSection)
    (h : line_section_missing_key ls = true) :
    ∃ e, extract_line_section score ls = Except.error e := by
  cases hs : ls.start with
  | none =>
    exact ⟨"KeyError: 'start'",
      by simp [extract_line_section, getKey, hs, error_bind]⟩
  | some v =>
    cases he : ls.«end» with
    | none =>
      exact ⟨"KeyError: 'end'",
        by simp [extract_line_section, getKey, hs, he, ok_bind, error_bind]⟩
    | some w =>
      rw [line_section_missing_key, hs, he] at h
      simp at h

/-- A line lacking a required key (possibly in a declared line-section)
makes its extraction raise. -/
theorem extract_line_error (score : List Event) (line : Line)
    (h : line_missing_key line = true) :
    ∃ e, extract_line score line = Except.error e := by
  cases hs : line.start with
  | none =>
    exact ⟨"KeyError: 'start'",
      by simp [extract_line, getKey, hs, error_bind]⟩
  | some v =>
    cases he : line.«end» with
    | none =>
      exact ⟨"KeyError: 'end'",
        by simp [extract_line, getKey, hs, he, ok_bind, error_bind]⟩
    | some w =>
      rw [line_missing_key, hs, he] at h
      simp only [Option.isNone_some, Bool.false_or] at h
      cases hsec : line.sections with
      | none => rw [hsec] at h; simp at h
      | some xs =>
        rw [hsec] at h
        obtain ⟨ls, hls, hbad⟩ := List.any_eq_true.mp h
        obtain ⟨e0, he0⟩ := extract_line_section_error score ls hbad
        obtain ⟨e1, he1⟩ :=
          extract_list_error (extract_line_section score) xs ls hls e0 he0
        exact ⟨e1,
          by simp [extract_line, getKey, hs, he, ok_bind, hsec, he1,
            error_bind]⟩

/-- A sana lacking a required key (possibly in a declared descendant)
makes its extraction raise. -/
theorem extract_sana_error (score : List Event) (sana : Sana)
    (h : sana_missing_key sana = true) :
    ∃ e, extract_sana score sana = Except.error e := by
  cases hs : sana.start with
  | none =>
    exact ⟨"KeyError: 'start'",
      by simp [extract_sana, getKey, hs, error_bind]⟩
  | some v =>
    cases he : sana.«end» with
    | none =>
      exact ⟨"KeyError: 'end'",
        by simp [extract_sana, getKey, hs, he, ok_bind, error_bind]⟩
    | some w =>
      rw [sana_missing_key, hs, he] at h
      simp only [Option.isNone_some, Bool.false_or] at h
      cases hl : sana.lines with
      | none => rw [hl] at h; simp at h
      | some xs =>
        rw [hl] at h
        obtain ⟨line, hline, hbad⟩ := List.any_eq_true.mp h
        obtain ⟨e0, he0⟩ := extract_line_error score line hbad
        obtain ⟨e1, he1⟩ :=
          extract_list_error (extract_line score) xs line hline e0 he0
        exact ⟨e1,
          by simp [extract_sana, getKey, hs, he, ok_bind, hl, he1,
            error_bind]⟩

/-- A section lacking a required key (possibly in a declared descendant)
makes its extraction raise. -/
theorem extract_section_error (score : List Event) (sect : Section)
    (h : section_missing_key sect = true) :
    ∃ e, extract_section score sect = Except.error e := by
  cases hs : sect.start with
  | none =>
    exact ⟨"KeyError: 'start'",
      by simp [extract_section, getKey, hs, error_bind]⟩
  | some v =>
    cases he : sect.«end» with
    | none =>
      exact ⟨"KeyError: 'end'",
        by simp [extract_section, getKey, hs, he, ok_bind, error_bind]⟩
    | some w =>
      rw [section_missing_key, hs, he] at h
      simp only [Option.isNone_some, Bool.false_or] at h
      cases hsa : sect.sanai with
      | none => rw [hsa] at h; simp at h
      | some xs =>
        rw [hsa] at h
        obtain ⟨sana, hsana, hbad⟩ := List.any_eq_true.mp h
        obtain ⟨e0, he0⟩ := extract_sana_error score sana hbad
        obtain ⟨e1, he1⟩ :=
          extract_list_error (extract_sana score) xs sana hsana e0 he0
        exact ⟨e1,
          by simp [extract_section, getKey, hs, he, ok_bind, hsa, he1,
            error_bind]⟩

/-- A piece whose annotation tree lacks a required key makes
`extract_sections` raise. -/
theorem extract_sections_error (score : List Event) (secs : List Section)
    (h : annotations_missing_key secs = true) :
    ∃ e, extract_sections score secs = Except.error e := by
  obtain ⟨sect, hsect, hbad⟩ := List.any_eq_true.mp h
  obtain ⟨e0, he0⟩ := extract_section_error score sect hbad
  exact extract_list_error (extract_section score) secs sect hsect e0 he0

/-- The `for`/`break` scan over the annotation records acts on the first
record whose `mbid` matches: parse then, and only then; records after the
first match are never reached. -/
theorem annotation_scan_eq (parse : String → Except String (List Event))
    (file_path mbid : String) (annotations : List Annotation) :
    annotation_scan parse file_path mbid annotations =
      match annotations.find? (fun a => decide (a.mbid = mbid)) with
      | some a =>
        match parse file_path with
        | Except.ok score => Except.ok (some ⟨score, a.sections⟩)
        | Except.error e => Except.error e
      | none => Except.ok none := by
  induction annotations with
  | nil => rfl
  | cons a rest ih =>
    by_cases h : a.mbid = mbid
    · simp [annotation_scan, h, List.find?_cons]
    · simp [annotation_scan, h, List.find?_cons, ih]

/-- Closed form of the corpus-build loop: every file contributes
independently — a matching file whose parse succeeds adds one dict entry,
a matching file whose parse raises appends one log message carrying the
file path and the cause, and a file with no matching record contributes
nothing at all. -/
theorem get_score_data_loop_eq (parse : String → Except String (List Event))
    (folder_path : String) (annotations : List Annotation) :
    ∀ (files : List String) (scores : List (String × ScoreData))
      (log : List String),
      get_score_data_loop parse folder_path annotations files (scores, log) =
        (corpus_scores parse folder_path annotations files scores,
         log ++ corpus_log parse folder_path annotations files) := by
  intro files
  induction files with
  | nil =>
    intro scores log
    simp [get_score_data_loop, corpus_scores, corpus_log]
  | cons f fs ih =>
    intro scores log
    cases hf : annotations.find? (fun a => decide (a.mbid = mbid_of_file f)) with
    | none =>
      simp only [get_score_data_loop, annotation_scan_eq, hf, ih,
        corpus_scores, corpus_log, List.foldl_cons, List.filterMap_cons]
    | some a =>
      cases hp : parse (folder_path ++ "/" ++ f) with
      | ok score =>
        simp only [get_score_data_loop, annotation_scan_eq, hf, hp, ih,
          corpus_scores, corpus_log, List.foldl_cons, List.filterMap_cons]
      | error e =>
        simp only [get_score_data_loop, annotation_scan_eq, hf, hp, ih,
          corpus_scores, corpus_log, List.foldl_cons, List.filterMap_cons,
          List.append_assoc, List.singleton_append]

/-- Membership after a Python dict assignment: the element is the new
binding or was already present. -/
theorem dict_insert_mem {α : Type _} (d : List (String × α)) (k : String)
    (v : α) (x : String × α) (hx : x ∈ PyDict.dict_insert d k v) :
    x = (k, v) ∨ x ∈ d := by
  unfold PyDict.dict_insert at hx
  by_cases h : (PyDict.dict_find d k).isSome
  · rw [if_pos h] at hx
    unfold PyDict.dict_update at hx
    obtain ⟨kv, hkv, heq⟩ := List.mem_map.mp hx
    by_cases hk : kv.1 = k
    · rw [if_pos hk] at heq; exact Or.inl heq.symm
    · rw [if_neg hk] at heq; exact Or.inr (heq ▸ hkv)
  · rw [if_neg h] at hx
    rcases List.mem_append.mp hx with hmem | hnew
    · exact Or.inr hmem
    · exact Or.inl (List.mem_singleton.mp hnew)

/-- Every piece of the built corpus was either already in the accumulator
or carries the sections of the first annotation record matching its piece
id, together with a timeline its file parsed to. -/
theorem corpus_scores_mem (parse : String → Except String (List Event))
    (folder_path : String) (annotations : List Annotation) :
    ∀ (files : List String) (acc : List (String × ScoreData))
      (mbid : String) (sd : ScoreData),
      (mbid, sd) ∈ corpus_scores parse folder_path annotations files acc →
      (mbid, sd) ∈ acc ∨
        ∃ a, annotations.find? (fun x => decide (x.mbid = mbid)) = some a ∧
          sd.annotations = a.sections ∧
          ∃ file_name, mbid_of_file file_name = mbid ∧
            parse (folder_path ++ "/" ++ file_name) = Except.ok sd.score := by
  intro files
  induction files with
  | nil =>
    intro acc mbid sd h
    exact Or.inl h
  | cons f fs ih =>
    intro acc mbid sd h
    simp only [corpus_scores, List.foldl_cons] at h
    cases hf : annotations.find? (fun a => decide (a.mbid = mbid_of_file f)) with
    | none =>
      rw [hf] at h
      exact ih acc mbid sd h
    | some a =>
      cases hp : parse (folder_path ++ "/" ++ f) with
      | error e =>
        rw [hf, hp] at h
        exact ih acc mbid sd h
      | ok score =>
        rw [hf, hp] at h
        rcases ih _ mbid sd h with hacc | hrest
        · have hacc' : (mbid, sd) ∈
              PyDict.dict_insert acc (mbid_of_file f) ⟨score, a.sections⟩ :=
            hacc
          rcases dict_insert_mem acc (mbid_of_file f) ⟨score, a.sections⟩
              (mbid, sd) hacc' with heq | hold
          · injection heq with h1 h2
            subst h1
            subst h2
            exact Or.inr ⟨a, hf, rfl, f, rfl, hp⟩
          · exact Or.inl hold
        · exact Or.inr hrest

end ExtractScoreData

namespace PyDict

/-- A key is absent from the dict exactly when lookup fails. -/
theorem dict_find_eq_none_iff {α : Type _} (d : List (String × α))
    (k : String) : dict_find d k = none ↔ k ∉ d.map Prod.fst := by
  induction d with
  | nil => simp [dict_find]
  | cons kv rest ih =>
    rw [List.map_cons]
    by_cases h : kv.1 = k
    · simp [dict_find, h]
    · rw [dict_find, if_neg h, ih]
      constructor
      · intro hk hmem
        rcases List.mem_cons.mp hmem with heq | hmem'
        · exact h heq.symm
        · exact hk hmem'
      · intro hk hmem'
        exact hk (List.mem_cons_of_mem _ hmem')

/-- A successful lookup means the key is present. -/
theorem dict_find_eq_some_mem {α : Type _} (d : List (String × α))
    (k : String) (v : α) (h : dict_find d k = some v) :
    k ∈ d.map Prod.fst := by
  by_contra hk
  rw [← dict_find_eq_none_iff] at hk
  rw [h] at hk
  cases hk

/-- In-place update does not change the key sequence. -/
theorem dict_update_keys {α : Type _} (d : List (String × α)) (k : String)
    (v : α) : (dict_update d k v).map Prod.fst = d.map Prod.fst := by
  unfold dict_update
  rw [List.map_map]
  apply List.map_congr_left
  intro kv _
  by_cases h : kv.1 = k
  · simp [h]
  · simp [h]

/-- With duplicate-free keys, a successful lookup pins down the value of
every entry carrying that key. -/
theorem dict_find_eq_some_val {α : Type _} (d : List (String × α))
    (k : String) (v : α) (hnd : (d.map Prod.fst).Nodup)
    (h : dict_find d k = some v) :
    ∀ kv ∈ d, kv.1 = k → kv.2 = v := by
  induction d with
  | nil => intro kv hkv; cases hkv
  | cons kv0 rest ih =>
    intro kv hkv hk
    rw [List.map_cons, List.nodup_cons] at hnd
    by_cases h0 : kv0.1 = k
    · rw [dict_find, if_pos h0] at h
      rcases List.mem_cons.mp hkv with rfl | hmem
      · exact Option.some.inj h
      · exfalso
        have hkmem : kv.1 ∈ rest.map Prod.fst :=
          List.mem_map_of_mem Prod.fst hmem
        rw [hk, ← h0] at hkmem
        exact hnd.1 hkmem
    · rw [dict_find, if_neg h0] at h
      rcases List.mem_cons.mp hkv with rfl | hmem
      · exact absurd hk h0
      · exact ih hnd.2 h kv hmem hk

end PyDict

namespace Pandas

/-- Dropping the rows whose total is zero does not change a
`NaN`-skipping column sum, because those rows' normalized entries are all
`NaN`. -/
theorem nan_sum_map_filter {α : Type _} (df : List α) (tot : α → Nat)
    (f : α → Option ℚ) (hf : ∀ r, tot r = 0 → f r = none) :
    nan_sum (df.map f) =
      nan_sum ((df.filter (fun r => decide (tot r ≠ 0))).map f) := by
  induction df with
  | nil => rfl
  | cons r rs ih =>
    by_cases h : tot r = 0
    · have hfr := hf r h
      have hd : decide (tot r ≠ 0) = false := by simp [h]
      simp only [List.map_cons, nan_sum, List.filterMap_cons, id_eq, hfr,
        List.filter_cons, hd, Bool.false_eq_true, ite_false]
      exact ih
    · have hd : decide (tot r ≠ 0) = true := by simp [h]
      cases hfr : f r with
      | none =>
        simp only [List.map_cons, nan_sum, List.filterMap_cons, id_eq, hfr,
          List.filter_cons, hd, ite_true]
        exact ih
      | some q =>
        simp only [List.map_cons, nan_sum, List.filterMap_cons, id_eq, hfr,
          List.filter_cons, hd, ite_true, List.sum_cons]
        rw [show ((rs.map f).filterMap id).sum = nan_sum (rs.map f) from rfl,
          show (((rs.filter (fun r => decide (tot r ≠ 0))).map f).filterMap
            id).sum = nan_sum ((rs.filter (fun r => decide (tot r ≠ 0))).map
              f) from rfl, ih]

end Pandas

namespace ScoreDataProcessing

/-- Normalized entries of a zero-total row are all `NaN`. -/
theorem pd_div_row_total_eq_none (x : Nat) (r : PRow)
    (h : row_total r = 0) : Pandas.pd_div x (row_total r) = none := by
  simp [Pandas.pd_div, h]

/-- Zero-total rows contribute nothing to the combined totals: filtering
them out of every table leaves the result unchanged. -/
theorem combine_skip_zero_rows (scores_data : List (List PRow)) :
    combine_normalized_position_counts scores_data =
      combine_normalized_position_counts
        (scores_data.map
          (fun df => df.filter (fun r => decide (row_total r ≠ 0)))) := by
  unfold combine_normalized_position_counts
  suffices h : ∀ (l : List (List PRow)) (acc : ℚ × ℚ × ℚ),
      l.foldl combine_step acc =
        (l.map (fun df => df.filter (fun r => decide (row_total r ≠ 0)))).foldl
          combine_step acc from h scores_data (0, 0, 0)
  intro l
  induction l with
  | nil => intro acc; rfl
  | cons df dfs ih =>
    intro acc
    have hstep : combine_step acc df =
        combine_step acc (df.filter (fun r => decide (row_total r ≠ 0))) := by
      simp only [combine_step, Prod.mk.injEq]
      refine ⟨?_, ?_, ?_⟩ <;>
        rw [Pandas.nan_sum_map_filter df row_total _
          (fun r h0 => pd_div_row_total_eq_none _ r h0)]
    simp only [List.foldl_cons, List.map_cons]
    rw [hstep, ih]

/-- A nonzero-total row's normalized entries are finite and sum to
exactly 1. -/
theorem prow_normalized_sum_one (r : PRow) (h : row_total r ≠ 0) :
    Pandas.nan_sum [Pandas.pd_div r.start25 (row_total r),
      Pandas.pd_div r.middle50 (row_total r),
      Pandas.pd_div r.end25 (row_total r)] = 1 := by
  have hT : ((row_total r : ℚ)) ≠ 0 := by exact_mod_cast h
  simp [Pandas.nan_sum, Pandas.pd_div, h]
  field_simp
  push_cast [row_total]
  ring

end ScoreDataProcessing

namespace Seg2ScoreDataProcessing

/-- Normalized entries of a zero-total decile row are all `NaN`. -/
theorem pd_div_drow_total_eq_none (x : Nat) (r : DRow)
    (h : drow_total r = 0) : Pandas.pd_div x (drow_total r) = none := by
  simp [Pandas.pd_div, h]

/-- Zero-total rows contribute nothing to the combined decile totals. -/
theorem seg2_combine_skip_zero_rows (scores_data : List (List DRow)) :
    combine_normalized_position_counts scores_data =
      combine_normalized_position_counts
        (scores_data.map
          (fun df => df.filter (fun r => decide (drow_total r ≠ 0)))) := by
  unfold combine_normalized_position_counts
  suffices h : ∀ (l : List (List DRow)) (acc : DTotals),
      l.foldl combine_step acc =
        (l.map (fun df => df.filter (fun r => decide (drow_total r ≠ 0)))).foldl
          combine_step acc from h scores_data ⟨0, 0, 0, 0, 0, 0, 0, 0, 0, 0⟩
  intro l
  induction l with
  | nil => intro acc; rfl
  | cons df dfs ih =>
    intro acc
    have hstep : combine_step acc df =
        combine_step acc (df.filter (fun r => decide (drow_total r ≠ 0))) := by
      simp only [combine_step, DTotals.mk.injEq]
      refine ⟨?_, ?_, ?_, ?_, ?_, ?_, ?_, ?_, ?_, ?_⟩ <;>
        rw [Pandas.nan_sum_map_filter df drow_total _
          (fun r h0 => pd_div_drow_total_eq_none _ r h0)]
    simp only [List.foldl_cons, List.map_cons]
    rw [hstep, ih]

/-- A nonzero-total decile row's normalized entries are finite and sum to
exactly 1. -/
theorem drow_normalized_sum_one (r : DRow) (h : drow_total r ≠ 0) :
    Pandas.nan_sum [Pandas.pd_div r.p10 (drow_total r),
      Pandas.pd_div r.p20 (drow_total r), Pandas.pd_div r.p30 (drow_total r),
      Pandas.pd_div r.p40 (drow_total r), Pandas.pd_div r.p50 (drow_total r),
      Pandas.pd_div r.p60 (drow_total r), Pandas.pd_div r.p70 (drow_total r),
      Pandas.pd_div r.p80 (drow_total r), Pandas.pd_div r.p90 (drow_total r),
      Pandas.pd_div r.p100 (drow_total r)] = 1 := by
  have hT : ((drow_total r : ℚ)) ≠ 0 := by exact_mod_cast h
  simp [Pandas.nan_sum, Pandas.pd_div, h]
  field_simp
  push_cast [drow_total]
  ring

end Seg2ScoreDataProcessing

namespace ScoreDataProcessing

/-- `grouped_keys` depends on the `seen` accumulator only through
membership. -/
theorem grouped_keys_congr (ts : List (String × List PRow)) :
    ∀ s₁ s₂ : List String, (∀ x, x ∈ s₁ ↔ x ∈ s₂) →
      grouped_keys ts s₁ = grouped_keys ts s₂ := by
  induction ts with
  | nil => intro s₁ s₂ _; rfl
  | cons t rest ih =>
    intro s₁ s₂ hs
    by_cases h : title_group_key t.1 ∈ s₁
    · rw [grouped_keys, if_pos h, grouped_keys, if_pos ((hs _).mp h)]
      exact ih s₁ s₂ hs
    · rw [grouped_keys, if_neg h, grouped_keys,
        if_neg (fun hx => h ((hs _).mpr hx))]
      refine congrArg _ (ih _ _ ?_)
      intro x
      simp only [List.mem_cons]
      exact or_congr Iff.rfl (hs x)

/-- Keys produced by `grouped_keys` were not previously seen. -/
theorem grouped_keys_not_mem_seen (ts : List (String × List PRow)) :
    ∀ (seen : List String) (q : String), q ∈ grouped_keys ts seen →
      q ∉ seen := by
  induction ts with
  | nil => intro seen q hq; cases hq
  | cons t rest ih =>
    intro seen q hq
    by_cases h : title_group_key t.1 ∈ seen
    · rw [grouped_keys, if_pos h] at hq
      exact ih seen q hq
    · rw [grouped_keys, if_neg h] at hq
      rcases List.mem_cons.mp hq with rfl | hq'
      · exact h
      · intro hqs
        exact ih _ q hq' (List.mem_cons_of_mem _ hqs)

/-- Unfolding the group concatenation one titled table at a time. -/
theorem group_rows_cons (key : String) (df : List PRow)
    (rest : List (String × List PRow)) (q : String) :
    group_rows ((key, df) :: rest) q =
      if title_group_key key = q then df ++ group_rows rest q
      else group_rows rest q := by
  by_cases h : title_group_key key = q
  · simp [group_rows, List.filter_cons, h]
  · simp [group_rows, List.filter_cons, h]

/-- Closed form of the merging loop: each accumulated group is extended
by the concatenation of the remaining tables sharing its key, and one new
group appears, in first-occurrence order, for each unseen key. -/
theorem merge_loop_eq (rest : List (String × List PRow)) :
    ∀ acc : List (String × List PRow), (acc.map Prod.fst).Nodup →
      merge_loop rest acc =
        acc.map (fun kv => (kv.1, kv.2 ++ group_rows rest kv.1)) ++
          (grouped_keys rest (acc.map Prod.fst)).map
            (fun k => (k, group_rows rest k)) := by
  induction rest with
  | nil =>
    intro acc _
    simp [merge_loop, group_rows, grouped_keys]
  | cons t rest' ih =>
    obtain ⟨key, df⟩ := t
    intro acc hnd
    cases hfind : PyDict.dict_find acc (title_group_key key) with
    | none =>
      have hkout : title_group_key key ∉ acc.map Prod.fst :=
        (PyDict.dict_find_eq_none_iff acc (title_group_key key)).mp hfind
      have hnd' : ((acc ++ [(title_group_key key, df)]).map Prod.fst).Nodup := by
        rw [List.map_append, List.nodup_append]
        refine ⟨hnd, List.nodup_singleton _, ?_⟩
        intro x hx hx'
        rw [List.map_singleton, List.mem_singleton] at hx'
        subst hx'
        exact hkout hx
      have hstep : merge_loop ((key, df) :: rest') acc =
          merge_loop rest' (acc ++ [(title_group_key key, df)]) := by
        simp only [merge_loop, hfind]
      have hcongr : grouped_keys rest'
          ((acc ++ [(title_group_key key, df)]).map Prod.fst) =
            grouped_keys rest' (title_group_key key :: acc.map Prod.fst) := by
        apply grouped_keys_congr
        intro x
        rw [List.map_append]
        simp [List.mem_append, List.mem_cons, or_comm]
      have hseen : grouped_keys ((key, df) :: rest') (acc.map Prod.fst) =
          title_group_key key ::
            grouped_keys rest' (title_group_key key :: acc.map Prod.fst) := by
        rw [grouped_keys, if_neg hkout]
      have hgrow : ∀ kv : String × List PRow, kv ∈ acc →
          (kv.1, kv.2 ++ group_rows ((key, df) :: rest') kv.1) =
            (kv.1, kv.2 ++ group_rows rest' kv.1) := by
        intro kv hkv
        have hne : title_group_key key ≠ kv.1 := by
          intro heq
          exact hkout (heq ▸ List.mem_map_of_mem Prod.fst hkv)
        rw [group_rows_cons, if_neg hne]
      have hgrow' : acc.map
            (fun kv => (kv.1, kv.2 ++ group_rows ((key, df) :: rest') kv.1)) =
          acc.map (fun kv => (kv.1, kv.2 ++ group_rows rest' kv.1)) :=
        List.map_congr_left hgrow
      have hnew : (grouped_keys rest'
          (title_group_key key :: acc.map Prod.fst)).map
            (fun k => (k, group_rows ((key, df) :: rest') k)) =
          (grouped_keys rest'
            (title_group_key key :: acc.map Prod.fst)).map
              (fun k => (k, group_rows rest' k)) := by
        apply List.map_congr_left
        intro q hq
        have hqk : title_group_key key ≠ q := by
          intro heq
          exact grouped_keys_not_mem_seen rest' _ q hq
            (heq ▸ List.mem_cons_self _ _)
        rw [group_rows_cons, if_neg hqk]
      rw [hstep, ih _ hnd', hcongr, hseen, List.map_cons, hgrow', hnew]
      simp [group_rows_cons, List.append_assoc]
    | some old =>
      have hkin : title_group_key key ∈ acc.map Prod.fst :=
        PyDict.dict_find_eq_some_mem acc (title_group_key key) old hfind
      have hndupd : ((PyDict.dict_update acc (title_group_key key)
          (old ++ df)).map Prod.fst).Nodup := by
        rw [PyDict.dict_update_keys]
        exact hnd
      have hstep : merge_loop ((key, df) :: rest') acc =
          merge_loop rest'
            (PyDict.dict_update acc (title_group_key key) (old ++ df)) := by
        simp only [merge_loop, hfind]
      rw [hstep, ih _ hndupd, PyDict.dict_update_keys]
      have hseen : grouped_keys ((key, df) :: rest') (acc.map Prod.fst) =
          grouped_keys rest' (acc.map Prod.fst) := by
        rw [grouped_keys, if_pos hkin]
      rw [hseen]
      have hnew : (grouped_keys rest' (acc.map Prod.fst)).map
            (fun k => (k, group_rows ((key, df) :: rest') k)) =
          (grouped_keys rest' (acc.map Prod.fst)).map
            (fun k => (k, group_rows rest' k)) := by
        apply List.map_congr_left
        intro q hq
        have hqk : title_group_key key ≠ q := by
          intro heq
          exact grouped_keys_not_mem_seen rest' _ q hq (heq ▸ hkin)
        rw [group_rows_cons, if_neg hqk]
      rw [hnew]
      have hacc : (PyDict.dict_update acc (title_group_key key)
            (old ++ df)).map
              (fun kv => (kv.1, kv.2 ++ group_rows rest' kv.1)) =
          acc.map
            (fun kv => (kv.1, kv.2 ++ group_rows ((key, df) :: rest') kv.1)) := by
        unfold PyDict.dict_update
        rw [List.map_map]
        apply List.map_congr_left
        intro kv hkv
        by_cases hk : kv.1 = title_group_key key
        · have hval : kv.2 = old :=
            PyDict.dict_find_eq_some_val acc (title_group_key key) old hnd
              hfind kv hkv hk
          obtain ⟨k1, v1⟩ := kv
          simp only at hk hval
          subst hk
          subst hval
          simp [Function.comp, group_rows_cons, List.append_assoc]
        · have hne : title_group_key key ≠ kv.1 := fun heq => hk heq.symm
          simp [Function.comp, hk, group_rows_cons, hne]
      rw [hacc]

/-- Closed form of `count_distribution_over_dataset`: one entry per
distinct group key, in first-occurrence order of the input titles, whose
table is the group-and-sum of the concatenation of that group's tables. -/
theorem count_distribution_closed_form (tables : List (String × List PRow)) :
    count_distribution_over_dataset tables =
      (grouped_keys tables []).map
        (fun k => (k, groupby_pattern_sum (group_rows tables k))) := by
  unfold count_distribution_over_dataset
  rw [merge_loop_eq tables [] (by simp)]
  simp [List.map_map, Function.comp]

/-- Sorted insertion permutes: the result holds the inserted element and
the original elements. -/
theorem perm_ordered_insert (a : String) (l : List String) :
    List.Perm (ordered_insert a l) (a :: l) := by
  induction l with
  | nil => exact List.Perm.refl _
  | cons b l ih =>
    by_cases h : string_le a b = true
    · rw [ordered_insert, if_pos h]
    · rw [ordered_insert, if_neg h]
      exact (ih.cons b).trans (List.Perm.swap a b l)

/-- Insertion sort permutes its input. -/
theorem perm_insertion_sort (l : List String) :
    List.Perm (insertion_sort l) l := by
  induction l with
  | nil => exact List.Perm.refl _
  | cons a l ih =>
    rw [insertion_sort]
    exact (perm_ordered_insert a (insertion_sort l)).trans (ih.cons a)

/-- The pattern column of a grouped-and-summed table is the sorted
deduplication of the input pattern column. -/
theorem groupby_pattern_sum_map_pattern (rows : List PRow) :
    (groupby_pattern_sum rows).map PRow.pattern =
      insertion_sort ((rows.map PRow.pattern).dedup) := by
  unfold groupby_pattern_sum
  rw [List.map_map]
  generalize insertion_sort ((rows.map PRow.pattern).dedup) = L
  induction L with
  | nil => rfl
  | cons a l ih => simp only [List.map_cons, ih, Function.comp]

/-- Properties of `groupby('Pattern').sum()`: one row per distinct
pattern, exactly the patterns of the input rows, bucket counts summed
over the matching input rows, and no more rows than the input had. -/
theorem groupby_pattern_sum_props (rows : List PRow) :
    ((groupby_pattern_sum rows).map PRow.pattern).Nodup ∧
    (∀ q, q ∈ (groupby_pattern_sum rows).map PRow.pattern ↔
      q ∈ rows.map PRow.pattern) ∧
    (∀ gr ∈ groupby_pattern_sum rows,
      gr.start25 = ((rows.filter
          (fun r => decide (r.pattern = gr.pattern))).map PRow.start25).sum ∧
      gr.middle50 = ((rows.filter
          (fun r => decide (r.pattern = gr.pattern))).map PRow.middle50).sum ∧
      gr.end25 = ((rows.filter
          (fun r => decide (r.pattern = gr.pattern))).map PRow.end25).sum) ∧
    (groupby_pattern_sum rows).length ≤ rows.length := by
  have hperm : List.Perm ((groupby_pattern_sum rows).map PRow.pattern)
      ((rows.map PRow.pattern).dedup) := by
    rw [groupby_pattern_sum_map_pattern]
    exact perm_insertion_sort _
  refine ⟨hperm.nodup_iff.mpr (List.nodup_dedup _), ?_, ?_, ?_⟩
  · intro q
    rw [hperm.mem_iff, List.mem_dedup]
  · intro gr hgr
    unfold groupby_pattern_sum at hgr
    obtain ⟨p, _, rfl⟩ := List.mem_map.mp hgr
    exact ⟨rfl, rfl, rfl⟩
  · have hlen : (groupby_pattern_sum rows).length =
        ((groupby_pattern_sum rows).map PRow.pattern).length :=
      (List.length_map _ _).symm
    rw [hlen, hperm.length_eq]
    calc (rows.map PRow.pattern).dedup.length
        ≤ (rows.map PRow.pattern).length := (List.dedup_sublist _).length_le
      _ = rows.length := List.length_map _ _

/-- The number of rows accumulated for a group is the sum of the row
counts of that group's input tables. -/
theorem group_rows_length (tables : List (String × List PRow)) (k : String) :
    (group_rows tables k).length =
      ((tables.filter (fun t => decide (title_group_key t.1 = k))).map
        (fun t => t.2.length)).sum := by
  unfold group_rows
  generalize tables.filter (fun t => decide (title_group_key t.1 = k)) = l
  induction l with
  | nil => rfl
  | cons t rest ih => simp [List.flatMap_cons, ih]

end ScoreDataProcessing

namespace Claims

open Music ScoreDataProcessing Seg2ScoreDataProcessing

/-- Claim C1 (code bug): the decile counting operation is claimed to
classify every occurrence start index into exactly one of the ten buckets,
so that the bucket counts sum to the total occurrence count for every `N`.
On the sub-timeline `gapScore` (15 pitched notes), the pattern `["D"]`
occurs exactly once, at start index 13, yet every decile bucket count is 0:
index 13 fails the ninth bucket bound `i < floor(0.9*15) = 13` and the
tenth bucket bound `i >= 15 - floor(0.1*15) = 14`, so the occurrence is
silently dropped and the bucket counts sum to 0, not 1. -/
theorem c1_decile_gap_failing_input :
    (Seg2ScoreDataProcessing.count_pattern_in_score gapScore ["D"]).total = 0 ∧
      (occIndices (notePitchNames gapScore) ["D"]) = [13] := by
  constructor <;> decide

/-- Claim C2, counterexample: counting a pattern of length 0 does not
return all-zero bucket counts.  On the empty sub-timeline the empty
pattern matches at index 0 (`names[0:0] == []`), which lands in the End
bucket (`0 >= 0 - floor(0.25*0)`), so the quartile counter returns
`(0, 0, 1)`, not `(0, 0, 0)`. -/
theorem c2_degenerate_pattern_counterexample :
    ScoreDataProcessing.count_pattern_in_score ([] : List Event)
        ([] : List String) ≠ (0, 0, 0) ∧
      ScoreDataProcessing.count_pattern_in_score ([] : List Event)
        ([] : List String) = (0, 0, 1) := by
  constructor <;> decide

/-- Claim C2 as amended: counting a pattern strictly longer than the
number of pitched events of the sub-timeline returns all-zero bucket
counts, and never an error, in both the quartile and the decile counting
operations; a pattern of length 0, however, matches at every one of the
`N + 1` start indices (so its bucket counts cannot all be zero on a
nonempty region). -/
theorem c2_degenerate_pattern_amended :
    (∀ (score : List Event) (pattern : List String),
      (notePitchNames score).length < pattern.length →
        ScoreDataProcessing.count_pattern_in_score score pattern =
            (0, 0, 0) ∧
          Seg2ScoreDataProcessing.count_pattern_in_score score pattern =
            DecileCounts.zero) ∧
    ∀ score : List Event,
      (occIndices (notePitchNames score) []).length =
        (notePitchNames score).length + 1 := by
  constructor
  · intro score pattern h
    have h0 : (notePitchNames score).length + 1 - pattern.length = 0 := by
      omega
    constructor
    · simp only [ScoreDataProcessing.count_pattern_in_score, h0,
        List.range_zero, quartile_loop]
    · simp only [Seg2ScoreDataProcessing.count_pattern_in_score, h0,
        List.range_zero, decile_loop]
  · intro score
    simp [occIndices]

/-- Claim C2, witness: a concrete one-note timeline and a two-note
pattern satisfying the amended theorem's hypothesis. -/
theorem c2_degenerate_pattern_witness :
    (notePitchNames [Event.mk 0 (some "C")]).length < (["C", "D"] : List String).length ∧
      ScoreDataProcessing.count_pattern_in_score [Event.mk 0 (some "C")]
          ["C", "D"] = (0, 0, 0) ∧
        Seg2ScoreDataProcessing.count_pattern_in_score [Event.mk 0 (some "C")]
          ["C", "D"] = DecileCounts.zero :=
  ⟨by decide,
    (c2_degenerate_pattern_amended.1 [Event.mk 0 (some "C")] ["C", "D"]
      (by decide)).1,
    (c2_degenerate_pattern_amended.1 [Event.mk 0 (some "C")] ["C", "D"]
      (by decide)).2⟩

/-- Claim C3, counterexample: a corpus of two pieces in which the first
piece's only declared section lacks its `start` key.  Section extraction
over the whole corpus raises `KeyError: 'start'`; no result is returned
for any piece — in particular the well-formed second piece is not
processed — so a malformed annotation tree aborts the run, not just the
affected piece. -/
theorem c3_missing_key_counterexample :
    ExtractScoreData.add_streams_to_score_data
        [("p1", ⟨[], [⟨none, some 4, none, none⟩]⟩),
         ("p2", ⟨[], [⟨some 0, some 4, none, none⟩]⟩)] =
      Except.error "KeyError: 'start'" := by
  rfl

/-- Claim C3 as amended: if any piece of the corpus has a declared node
lacking a required `start` or `end` key, `add_streams_to_score_data`
raises (there is no per-piece isolation around section extraction), so
the whole corpus run halts and no piece's extraction is returned. -/
theorem c3_missing_key_amended
    (scores_data : List (String × ExtractScoreData.ScoreData))
    (h : ∃ entry ∈ scores_data,
      ExtractScoreData.annotations_missing_key entry.2.annotations = true) :
    ∃ e, ExtractScoreData.add_streams_to_score_data scores_data =
      Except.error e := by
  obtain ⟨entry, hentry, hbad⟩ := h
  obtain ⟨e0, he0⟩ := ExtractScoreData.extract_sections_error entry.2.score
    entry.2.annotations hbad
  apply ExtractScoreData.extract_list_error _ scores_data entry hentry e0
  simp only [he0, ExtractScoreData.error_bind]

/-- Claim C3, witness: the two-piece corpus whose first piece is
malformed satisfies the amended theorem's hypothesis. -/
theorem c3_missing_key_witness :
    (∃ entry ∈ ([("p1", ⟨[], [⟨none, some 4, none, none⟩]⟩),
        ("p2", ⟨[], [⟨some 0, some 4, none, none⟩]⟩)] :
          List (String × ExtractScoreData.ScoreData)),
      ExtractScoreData.annotations_missing_key entry.2.annotations = true) ∧
      ∃ e, ExtractScoreData.add_streams_to_score_data
          [("p1", ⟨[], [⟨none, some 4, none, none⟩]⟩),
           ("p2", ⟨[], [⟨some 0, some 4, none, none⟩]⟩)] =
        Except.error e :=
  ⟨by decide, c3_missing_key_amended _ (by decide)⟩

/-- Claim C6, counterexample: a corpus build over one file that matches
no annotation record.  The file is excluded and the batch finishes, but
nothing is logged — the returned log is empty, where the claim requires a
logged failure naming the file path. -/
theorem c6_unmatched_file_counterexample :
    ExtractScoreData.get_score_data (fun _ => Except.ok []) ["a.xml"]
      "scores" [] = ([], []) := by
  rfl

/-- Claim C6 as amended: the corpus build equals, file by file, the
fails-open contract — a file with a matching annotation record whose
parse succeeds contributes its corpus entry; a matching file whose parse
raises contributes exactly one log message carrying the file path and the
underlying cause and is excluded; a file matching no annotation record is
excluded silently (no log entry); and every remaining file is still
processed. -/
theorem c6_corpus_build_amended
    (parse : String → Except String (List Music.Event))
    (scores_folder : List String) (folder_path : String)
    (annotations : List ExtractScoreData.Annotation) :
    ExtractScoreData.get_score_data parse scores_folder folder_path
        annotations =
      (ExtractScoreData.corpus_scores parse folder_path annotations
        scores_folder [],
       ExtractScoreData.corpus_log parse folder_path annotations
        scores_folder) := by
  unfold ExtractScoreData.get_score_data
  rw [ExtractScoreData.get_score_data_loop_eq]
  simp

/-- Claim C9 (confirmed): the slicing operation returns exactly the
events of the timeline whose offset `o` satisfies `start <= o < end`, in
their original order; an event at offset exactly `start` is included and
an event at offset exactly `end` is excluded. -/
theorem c9_slice_boundaries (score : List Event) (s e : ℚ) :
    ExtractScoreData.extract_measures score s e =
        score.filter (fun ev => decide (s ≤ ev.offset ∧ ev.offset < e)) ∧
      ∀ ev : Event, ev ∈ ExtractScoreData.extract_measures score s e ↔
        ev ∈ score ∧ s ≤ ev.offset ∧ ev.offset < e := by
  constructor
  · rw [ExtractScoreData.extract_measures_eq_slice]
    unfold ExtractScoreData.getElementsByOffset
    apply List.filter_congr
    intro ev _
    simp
  · intro ev
    rw [ExtractScoreData.extract_measures_eq_slice]
    simp [ExtractScoreData.getElementsByOffset, List.mem_filter, and_assoc]

/-- Claim C10 (confirmed): the annotation record attached to a piece is
that of the first record whose `mbid` equals the filename stem; records
after the first match are ignored; and when no record matches, the scan
returns nothing and never consults the parser (its result is the same for
every parser). -/
theorem c10_first_annotation_match :
    (∀ (parse : String → Except String (List Music.Event))
       (file_path mbid : String)
       (annotations : List ExtractScoreData.Annotation),
       ExtractScoreData.annotation_scan parse file_path mbid annotations =
         match annotations.find? (fun a => decide (a.mbid = mbid)) with
         | some a =>
           (match parse file_path with
            | Except.ok score => Except.ok (some ⟨score, a.sections⟩)
            | Except.error e => Except.error e)
         | none => Except.ok none) ∧
    (∀ (parse parse' : String → Except String (List Music.Event))
       (file_path mbid : String)
       (annotations : List ExtractScoreData.Annotation),
       annotations.find? (fun a => decide (a.mbid = mbid)) = none →
       ExtractScoreData.annotation_scan parse file_path mbid annotations =
           Except.ok none ∧
         ExtractScoreData.annotation_scan parse file_path mbid annotations =
           ExtractScoreData.annotation_scan parse' file_path mbid
             annotations) ∧
    ∀ (parse : String → Except String (List Music.Event))
      (scores_folder : List String) (folder_path : String)
      (annotations : List ExtractScoreData.Annotation) (mbid : String)
      (sd : ExtractScoreData.ScoreData),
      (mbid, sd) ∈ (ExtractScoreData.get_score_data parse scores_folder
        folder_path annotations).1 →
      ∃ a, annotations.find? (fun x => decide (x.mbid = mbid)) = some a ∧
        sd.annotations = a.sections := by
  refine ⟨ExtractScoreData.annotation_scan_eq, ?_, ?_⟩
  · intro parse parse' file_path mbid annotations h
    constructor
    · rw [ExtractScoreData.annotation_scan_eq, h]
    · rw [ExtractScoreData.annotation_scan_eq, h,
        ExtractScoreData.annotation_scan_eq, h]
  · intro parse scores_folder folder_path annotations mbid sd h
    unfold ExtractScoreData.get_score_data at h
    rw [ExtractScoreData.get_score_data_loop_eq] at h
    simp only at h
    rcases ExtractScoreData.corpus_scores_mem parse folder_path annotations
        scores_folder [] mbid sd h with hnil | ⟨a, hfind, hsec, _⟩
    · cases hnil
    · exact ⟨a, hfind, hsec⟩

/-- Claim C10, witness: with two annotation records sharing the mbid `a`,
the corpus entry built for `a.xml` carries the first record's sections;
and with an empty annotation set the scan returns nothing. -/
theorem c10_first_annotation_match_witness :
    ((([] : List ExtractScoreData.Annotation).find?
          (fun a => decide (a.mbid = "x")) = none ∧
        ExtractScoreData.annotation_scan (fun _ => Except.ok []) "p/x.xml"
          "x" [] = Except.ok none) ∧
      ("a", (⟨[], [⟨some 0, some 1, none, none⟩]⟩ :
          ExtractScoreData.ScoreData)) ∈
        (ExtractScoreData.get_score_data (fun _ => Except.ok []) ["a.xml"]
          "p" [⟨"a", [⟨some 0, some 1, none, none⟩]⟩,
               ⟨"a", [⟨some 2, some 3, none, none⟩]⟩]).1) ∧
      ∃ a, ([⟨"a", [⟨some 0, some 1, none, none⟩]⟩,
          ⟨"a", [⟨some 2, some 3, none, none⟩]⟩] :
            List ExtractScoreData.Annotation).find?
          (fun x => decide (x.mbid = "a")) = some a ∧
        (⟨[], [⟨some 0, some 1, none, none⟩]⟩ :
          ExtractScoreData.ScoreData).annotations = a.sections :=
  ⟨⟨⟨by decide,
      (c10_first_annotation_match.2.1 (fun _ => Except.ok [])
        (fun _ => Except.ok []) "p/x.xml" "x" [] (by decide)).1⟩,
    by decide⟩,
   c10_first_annotation_match.2.2 (fun _ => Except.ok []) ["a.xml"] "p"
     [⟨"a", [⟨some 0, some 1, none, none⟩]⟩,
      ⟨"a", [⟨some 2, some 3, none, none⟩]⟩] "a"
     ⟨[], [⟨some 0, some 1, none, none⟩]⟩ (by decide)⟩

/-- Claim C7 (confirmed): in the corpus-wide normalization (both the
quartile and the decile variant), every row with nonzero bucket total
normalizes to bucket values summing to exactly 1, and rows with zero
bucket total — whose normalized entries are all the `NaN` of `0/0` — are
excluded from the corpus-wide per-bucket sums: dropping them from every
table leaves the combined totals unchanged. -/
theorem c7_normalization_skips_zero_rows :
    (∀ scores_data : List (List PRow),
      ScoreDataProcessing.combine_normalized_position_counts scores_data =
        ScoreDataProcessing.combine_normalized_position_counts
          (scores_data.map (fun df => df.filter
            (fun r => decide (row_total r ≠ 0))))) ∧
    (∀ r : PRow, row_total r ≠ 0 →
      Pandas.nan_sum [Pandas.pd_div r.start25 (row_total r),
        Pandas.pd_div r.middle50 (row_total r),
        Pandas.pd_div r.end25 (row_total r)] = 1) ∧
    (∀ scores_data : List (List DRow),
      Seg2ScoreDataProcessing.combine_normalized_position_counts
          scores_data =
        Seg2ScoreDataProcessing.combine_normalized_position_counts
          (scores_data.map (fun df => df.filter
            (fun r => decide (drow_total r ≠ 0))))) ∧
    ∀ r : DRow, drow_total r ≠ 0 →
      Pandas.nan_sum [Pandas.pd_div r.p10 (drow_total r),
        Pandas.pd_div r.p20 (drow_total r),
        Pandas.pd_div r.p30 (drow_total r),
        Pandas.pd_div r.p40 (drow_total r),
        Pandas.pd_div r.p50 (drow_total r),
        Pandas.pd_div r.p60 (drow_total r),
        Pandas.pd_div r.p70 (drow_total r),
        Pandas.pd_div r.p80 (drow_total r),
        Pandas.pd_div r.p90 (drow_total r),
        Pandas.pd_div r.p100 (drow_total r)] = 1 :=
  ⟨combine_skip_zero_rows, prow_normalized_sum_one,
    seg2_combine_skip_zero_rows, drow_normalized_sum_one⟩

/-- Claim C7, witness: concrete nonzero-total rows of both table shapes
whose normalized entries sum to 1. -/
theorem c7_normalization_witness :
    row_total ⟨"p", 1, 2, 1⟩ ≠ 0 ∧
      Pandas.nan_sum
        [Pandas.pd_div (PRow.start25 ⟨"p", 1, 2, 1⟩)
            (row_total ⟨"p", 1, 2, 1⟩),
          Pandas.pd_div (PRow.middle50 ⟨"p", 1, 2, 1⟩)
            (row_total ⟨"p", 1, 2, 1⟩),
          Pandas.pd_div (PRow.end25 ⟨"p", 1, 2, 1⟩)
            (row_total ⟨"p", 1, 2, 1⟩)] = 1 ∧
      drow_total ⟨"q", 1, 0, 0, 0, 0, 0, 0, 0, 0, 2⟩ ≠ 0 ∧
      Pandas.nan_sum
        [Pandas.pd_div (DRow.p10 ⟨"q", 1, 0, 0, 0, 0, 0, 0, 0, 0, 2⟩)
            (drow_total ⟨"q", 1, 0, 0, 0, 0, 0, 0, 0, 0, 2⟩),
          Pandas.pd_div (DRow.p20 ⟨"q", 1, 0, 0, 0, 0, 0, 0, 0, 0, 2⟩)
            (drow_total ⟨"q", 1, 0, 0, 0, 0, 0, 0, 0, 0, 2⟩),
          Pandas.pd_div (DRow.p30 ⟨"q", 1, 0, 0, 0, 0, 0, 0, 0, 0, 2⟩)
            (drow_total ⟨"q", 1, 0, 0, 0, 0, 0, 0, 0, 0, 2⟩),
          Pandas.pd_div (DRow.p40 ⟨"q", 1, 0, 0, 0, 0, 0, 0, 0, 0, 2⟩)
            (drow_total ⟨"q", 1, 0, 0, 0, 0, 0, 0, 0, 0, 2⟩),
          Pandas.pd_div (DRow.p50 ⟨"q", 1, 0, 0, 0, 0, 0, 0, 0, 0, 2⟩)
            (drow_total ⟨"q", 1, 0, 0, 0, 0, 0, 0, 0, 0, 2⟩),
          Pandas.pd_div (DRow.p60 ⟨"q", 1, 0, 0, 0, 0, 0, 0, 0, 0, 2⟩)
            (drow_total ⟨"q", 1, 0, 0, 0, 0, 0, 0, 0, 0, 2⟩),
          Pandas.pd_div (DRow.p70 ⟨"q", 1, 0, 0, 0, 0, 0, 0, 0, 0, 2⟩)
            (drow_total ⟨"q", 1, 0, 0, 0, 0, 0, 0, 0, 0, 2⟩),
          Pandas.pd_div (DRow.p80 ⟨"q", 1, 0, 0, 0, 0, 0, 0, 0, 0, 2⟩)
            (drow_total ⟨"q", 1, 0, 0, 0, 0, 0, 0, 0, 0, 2⟩),
          Pandas.pd_div (DRow.p90 ⟨"q", 1, 0, 0, 0, 0, 0, 0, 0, 0, 2⟩)
            (drow_total ⟨"q", 1, 0, 0, 0, 0, 0, 0, 0, 0, 2⟩),
          Pandas.pd_div (DRow.p100 ⟨"q", 1, 0, 0, 0, 0, 0, 0, 0, 0, 2⟩)
            (drow_total ⟨"q", 1, 0, 0, 0, 0, 0, 0, 0, 0, 2⟩)] = 1 :=
  ⟨by decide,
    c7_normalization_skips_zero_rows.2.1 ⟨"p", 1, 2, 1⟩ (by decide),
    by decide,
    c7_normalization_skips_zero_rows.2.2.2 ⟨"q", 1, 0, 0, 0, 0, 0, 0, 0, 0, 2⟩
      (by decide)⟩

/-- Claim C8 (confirmed): the group-merging operation groups the input
tables by the stripped text of their title before the first colon, and
each output table has exactly one row per distinct Pattern of its group's
input rows, carrying the sums of that Pattern's bucket counts over all
the group's tables (a Pattern present in only some tables still appears,
with only those tables' counts), with output row count bounded by the sum
of the group's input row counts. -/
theorem c8_merge_by_group (tables : List (String × List PRow)) :
    count_distribution_over_dataset tables =
        (grouped_keys tables []).map
          (fun k => (k, groupby_pattern_sum (group_rows tables k))) ∧
      ∀ p df, (p, df) ∈ count_distribution_over_dataset tables →
        (df.map PRow.pattern).Nodup ∧
          (∀ q, q ∈ df.map PRow.pattern ↔
            q ∈ (group_rows tables p).map PRow.pattern) ∧
          (∀ gr ∈ df,
            gr.start25 = (((group_rows tables p).filter
              (fun r => decide (r.pattern = gr.pattern))).map
                PRow.start25).sum ∧
            gr.middle50 = (((group_rows tables p).filter
              (fun r => decide (r.pattern = gr.pattern))).map
                PRow.middle50).sum ∧
            gr.end25 = (((group_rows tables p).filter
              (fun r => decide (r.pattern = gr.pattern))).map
                PRow.end25).sum) ∧
          df.length ≤ ((tables.filter
            (fun t => decide (title_group_key t.1 = p))).map
              (fun t => t.2.length)).sum := by
  refine ⟨count_distribution_closed_form tables, ?_⟩
  intro p df hmem
  rw [count_distribution_closed_form tables] at hmem
  obtain ⟨k, _, heq⟩ := List.mem_map.mp hmem
  injection heq with h1 h2
  subst h1
  subst h2
  have hp := groupby_pattern_sum_props (group_rows tables k)
  exact ⟨hp.1, hp.2.1, hp.2.2.1,
    le_trans hp.2.2.2 (le_of_eq (group_rows_length tables k))⟩

/-- Claim C8, witness: merging the two tables titled
`TF IDF centos : sanai of X` and `TF IDF centos : sanai of Y` yields one
group keyed `TF IDF centos` whose table has one row per distinct Pattern,
with per-pattern summed counts; the pattern `EF`, present in only the
second table, still appears. -/
theorem c8_merge_by_group_witness :
    (("TF IDF centos",
        [⟨"CD", 1, 2, 0⟩, ⟨"EF", 1, 1, 1⟩]) : String × List PRow) ∈
      count_distribution_over_dataset
        [("TF IDF centos : sanai of X", [⟨"CD", 1, 0, 0⟩]),
         ("TF IDF centos : sanai of Y",
           [⟨"CD", 0, 2, 0⟩, ⟨"EF", 1, 1, 1⟩])] ∧
    (([⟨"CD", 1, 2, 0⟩, ⟨"EF", 1, 1, 1⟩] : List PRow).map
      PRow.pattern).Nodup :=
  ⟨by decide,
    ((c8_merge_by_group
      [("TF IDF centos : sanai of X", [⟨"CD", 1, 0, 0⟩]),
       ("TF IDF centos : sanai of Y", [⟨"CD", 0, 2, 0⟩, ⟨"EF", 1, 1, 1⟩])]).2
      "TF IDF centos" [⟨"CD", 1, 2, 0⟩, ⟨"EF", 1, 1, 1⟩] (by decide)).1⟩

/-- Claim C4 (confirmed): in the quartile counting operation an occurrence
at start index `i` is counted as Start exactly when `i < floor(0.25*N)`,
as End exactly when `i >= N - floor(0.25*N)`, and as Middle otherwise;
on the synthetic 20-note timeline `[C,D,E,F,G]*4` the pattern `[C,D]`
occurs at indices 0, 5, 10, 15 and the counts are
`(Start, Middle, End) = (1, 2, 1)`. -/
theorem c4_quartile_scheme :
    (∀ (score : List Event) (pattern : List String),
      ScoreDataProcessing.count_pattern_in_score score pattern =
        (((occIndices (notePitchNames score) pattern).filter
            (fun i => decide (i < (notePitchNames score).length / 4))).length,
         ((occIndices (notePitchNames score) pattern).filter
            (fun i => !decide (i < (notePitchNames score).length / 4) &&
              !decide ((notePitchNames score).length -
                (notePitchNames score).length / 4 ≤ i))).length,
         ((occIndices (notePitchNames score) pattern).filter
            (fun i => decide ((notePitchNames score).length -
              (notePitchNames score).length / 4 ≤ i))).length)) ∧
      occIndices (notePitchNames scenarioScore) ["C", "D"] = [0, 5, 10, 15] ∧
      ScoreDataProcessing.count_pattern_in_score scenarioScore ["C", "D"] =
        (1, 2, 1) :=
  ⟨fun score pattern => count_pattern_in_score_char score pattern,
    by decide, by decide⟩

/-- Claim C5 (confirmed): for every sub-timeline and pattern the three
quartile bucket counts sum to the total number of occurrences of the
pattern in the sub-timeline's pitch-name list. -/
theorem c5_quartile_counts_sum (score : List Event) (pattern : List String) :
    (ScoreDataProcessing.count_pattern_in_score score pattern).1 +
        (ScoreDataProcessing.count_pattern_in_score score pattern).2.1 +
        (ScoreDataProcessing.count_pattern_in_score score pattern).2.2 =
      (occIndices (notePitchNames score) pattern).length := by
  rw [count_pattern_in_score_char]
  exact (quartile_split (notePitchNames score).length
    (occIndices (notePitchNames score) pattern)).2

end Claims

